import Mathlib

/-!
# Verification of the Assignment & Execution Orchestration Engine

Shallow embedding of the orchestrator's agent assigner
(`src/orchestrator/classifier/agent_assigner.py`), execution coordinator
(`src/orchestrator/execution/coordinator.py`) and worktree manager
(`src/orchestrator/worktree/manager.py`), together with theorems settling
the specification claims about them.

Python `dict`s are modelled as insertion-ordered association lists
(`List (String × _)`): Python 3.7+ dictionaries iterate in insertion order,
assignment to an existing key keeps its position, and `max` over `items()`
returns the first item attaining the maximum.  Python `float` scores are
modelled as `ℚ` (every score contribution in the source is a multiple of
1/2, so rationals are exact).
-/

namespace Orchestrator

/-- Look up a key in an insertion-ordered association list
(the first binding wins, as in a Python dict where keys are unique). -/
def alistLookup {α : Type} (l : List (String × α)) (k : String) : Option α :=
  match l with
  | [] => none
  | (k', v) :: rest => if k' = k then some v else alistLookup rest k

/-- `Complexity` enum from `orchestrator/core/models.py`. -/
inductive Complexity where
  | simple
  | medium
  | complex
deriving DecidableEq, Repr

/-- The fields of `Task` (from `orchestrator/core/models.py`) that the
assignment engine reads or writes.  `task_type` is the enum's string value
(e.g. `"backend_api"`), as used for rule lookup in the source. -/
structure Task where
  id : String
  title : String
  description : String
  key_activities : List String
  task_type : String
  complexity : Complexity
  tech_stack : List String
  assigned_agent : Option String
deriving DecidableEq, Repr

/-- One agent's entry in the `agents` registry of `agents.yaml`, with the
fields `_score_agents` and its helpers read. -/
structure Agent where
  optimal_tasks : List String
  strengths : List String
  supported_languages : List String
  context_window : Nat
  cost_tier : String
deriving DecidableEq, Repr

/-- One entry of `assignment_rules`: a primary agent and a list of
secondary agents for a task category. -/
structure AssignRule where
  primary : String
  secondary : List String
deriving DecidableEq, Repr

/-- The state of an `AgentAssigner` after loading `agents.yaml`:
the agent registry and the category assignment rules, both
insertion-ordered. -/
structure AssignerConfig where
  agents : List (String × Agent)
  assignment_rules : List (String × AssignRule)
deriving DecidableEq, Repr

/-- `AgentAssigner._validate_agent`: membership of the name in the agent
registry. -/
def validate_agent (cfg : AssignerConfig) (agent_name : String) : Bool :=
  (alistLookup cfg.agents agent_name).isSome

/-- `AgentAssigner._score_complexity_match`. -/
def score_complexity_match (complexity : Complexity) (agent : Agent) : ℚ :=
  match complexity with
  | .simple =>
      (if "autocomplete_speed" ∈ agent.strengths then (3 : ℚ) else 0) +
      (if "boilerplate_generation" ∈ agent.strengths then (2 : ℚ) else 0)
  | .complex =>
      (if "architectural_planning" ∈ agent.strengths then (5 : ℚ) else 0) +
      (if "complex_refactoring" ∈ agent.strengths then (4 : ℚ) else 0) +
      (if "legacy_code_understanding" ∈ agent.strengths then (3 : ℚ) else 0)
  | .medium => 2

/-- `AgentAssigner._score_tech_stack_match`: +2 per task tech that the
agent supports (an empty tech stack scores 0, which the explicit guard in
the source also yields). -/
def score_tech_stack_match (tech_stack : List String) (agent : Agent) : ℚ :=
  (tech_stack.countP (fun tech => tech ∈ agent.supported_languages)) * 2

/-- Substring test on strings, as Python's `in` operator on `str`. -/
def strContains (haystack needle : String) : Bool :=
  decide (needle.toList <:+: haystack.toList)

/-- The context-hungry indicator keywords of
`AgentAssigner._score_context_window`. -/
def contextKeywords : List String :=
  ["multi-file", "refactor", "architecture", "legacy", "comprehensive"]

/-- Python's `str.lower()`, as a character-wise map. -/
def strToLower (s : String) : String :=
  ⟨s.data.map Char.toLower⟩

/-- The lowercased text scanned by `_score_context_window`:
description and key activities joined by spaces. -/
def taskTextContent (task : Task) : String :=
  strToLower (task.description ++ " " ++ String.intercalate " " task.key_activities)

/-- `AgentAssigner._score_context_window`. -/
def score_context_window (task : Task) (agent : Agent) : ℚ :=
  let text_content := taskTextContent task
  let needs_large_context := contextKeywords.any (fun kw => strContains text_content kw)
  if needs_large_context ∧ agent.context_window ≥ 100000 then 3
  else if needs_large_context ∧ agent.context_window ≥ 50000 then 3/2
  else if ¬needs_large_context ∧ agent.context_window ≥ 8000 then 1
  else 0

/-- Score of one agent for one task: the five additive factors of
`AgentAssigner._score_agents` (task-type match, complexity, tech stack,
context window, cost tier). -/
def score_agent (task : Task) (agent : Agent) : ℚ :=
  (if task.task_type ∈ agent.optimal_tasks then (10 : ℚ) else 0) +
  score_complexity_match task.complexity agent +
  score_tech_stack_match task.tech_stack agent +
  score_context_window task agent +
  (if agent.cost_tier = "budget" then (1 : ℚ)
   else if agent.cost_tier = "mid" then 1/2 else 0)

/-- `scores[agent_name] = score` on an insertion-ordered dict:
update in place if the key exists, else append. -/
def dictInsert (scores : List (String × ℚ)) (k : String) (v : ℚ) :
    List (String × ℚ) :=
  if scores.any (fun p => p.1 = k) then
    scores.map (fun p => if p.1 = k then (k, v) else p)
  else
    scores ++ [(k, v)]

/-- `AgentAssigner._score_agents`: skip candidates absent from the
registry, score the rest into an insertion-ordered dict. -/
def score_agents (cfg : AssignerConfig) (task : Task)
    (candidate_agents : List String) : List (String × ℚ) :=
  candidate_agents.foldl
    (fun scores agent_name =>
      match alistLookup cfg.agents agent_name with
      | none => scores
      | some agent => dictInsert scores agent_name (score_agent task agent))
    []

/-- One comparison step of Python's `max(..., key=lambda x: x[1])`:
the current best is replaced only on a strictly greater key. -/
def betterOf (best q : String × ℚ) : String × ℚ :=
  if best.2 < q.2 then q else best

/-- Python's `max(scores.items(), key=lambda x: x[1])` on a nonempty dict:
scan left to right, replacing the current best only on a strictly greater
value, so the first item attaining the maximum wins. -/
def pickBest : List (String × ℚ) → Option (String × ℚ)
  | [] => none
  | p :: ps => some (ps.foldl betterOf p)

/-- `AgentAssigner._determine_best_agent`:
rule-based candidates when the task's category has a rule and some
candidate scores; otherwise score all registered agents; otherwise the
hard-coded fallback `"claude"`. -/
def determine_best_agent (cfg : AssignerConfig) (task : Task) : String :=
  let fallback :=
    let all_agents := cfg.agents.map Prod.fst
    match pickBest (score_agents cfg task all_agents) with
    | some best => best.1
    | none => "claude"
  match alistLookup cfg.assignment_rules task.task_type with
  | some rules =>
      match pickBest (score_agents cfg task (rules.primary :: rules.secondary)) with
      | some best => best.1
      | none => fallback
  | none => fallback

/-- `AgentAssigner.assign_agent`.  A raised `ValueError` is modelled as
`Except.error` carrying the message.  Python's `if manual_override:` is
falsy for both `None` and the empty string, hence the emptiness test. -/
def assign_agent (cfg : AssignerConfig) (task : Task)
    (manual_override : Option String) : Except String Task :=
  match manual_override with
  | some name =>
      if name ≠ "" then
        if validate_agent cfg name then
          .ok { task with assigned_agent := some name }
        else
          .error ("Invalid agent: " ++ name)
      else
        .ok { task with assigned_agent := some (determine_best_agent cfg task) }
  | none =>
      .ok { task with assigned_agent := some (determine_best_agent cfg task) }

/-- `AgentAssigner.assign_agents`: sequential loop over the tasks, looking
up each task's override; an exception from `assign_agent` propagates and
aborts the loop (there is no `try`/`except` in the source). -/
def assign_agents (cfg : AssignerConfig) (tasks : List Task)
    (manual_overrides : List (String × String)) : Except String (List Task) :=
  match tasks with
  | [] => .ok []
  | task :: rest =>
      match assign_agent cfg task (alistLookup manual_overrides task.id) with
      | .error e => .error e
      | .ok assigned =>
          match assign_agents cfg rest manual_overrides with
          | .error e => .error e
          | .ok assigned_rest => .ok (assigned :: assigned_rest)

/-! ## Execution coordinator (`orchestrator/execution/coordinator.py`) -/

/-- `ExecutionStatus` enum. -/
inductive ExecutionStatus where
  | pending
  | running
  | completed
  | failed
  | timeout
  | cancelled
deriving DecidableEq, Repr

/-- A status is terminal when it is one of the four right-hand states of
the execution state machine. -/
def isTerminal (s : ExecutionStatus) : Bool :=
  s = .completed ∨ s = .failed ∨ s = .timeout ∨ s = .cancelled

/-- The fields of an `AgentAssignment` the coordinator reads
(`assignment.task.id`, `assignment.task.title`,
`assignment.primary_agent`). -/
structure CoordAssignment where
  task_id : String
  task_title : String
  primary_agent : String
deriving DecidableEq, Repr

/-- `AgentExecution` dataclass.  Timestamps are abstract clock readings
(`datetime.now()` values), modelled as natural numbers. -/
structure AgentExecution where
  worktree_path : String
  assignment : CoordAssignment
  status : ExecutionStatus := .pending
  start_time : Option Nat := none
  end_time : Option Nat := none
  logs : List String := []
  result : Option String := none
  return_code : Option Int := none
  timeout_seconds : Nat := 3600
deriving DecidableEq, Repr

/-- `AgentExecution.is_successful`. -/
def is_successful (e : AgentExecution) : Bool :=
  e.status = .completed ∧ e.return_code = some 0

/-- The execution object `execute_parallel` constructs for an assignment
with a matching worktree: all bookkeeping fields at their dataclass
defaults. -/
def mkExecution (worktree_path : String) (assignment : CoordAssignment) :
    AgentExecution :=
  { worktree_path := worktree_path, assignment := assignment }

/-- Outcome of awaiting the agent runner inside `_execute_single`'s `try`:
the runner returns a result string, raises `asyncio.TimeoutError`, or
raises some other exception carrying a message. -/
inductive RunOutcome where
  | ok (result : String)
  | timedOut
  | err (msg : String)
deriving DecidableEq, Repr

/-- `ExecutionCoordinator._execute_single`, after the semaphore is
acquired, as a function of the runner's outcome and of the two
`datetime.now()` readings (start stamp `t1`, end stamp `t2`).  The
`finally` block stamps `end_time` on every branch. -/
def execute_single (e : AgentExecution) (outcome : RunOutcome)
    (t1 t2 : Nat) : AgentExecution :=
  let started :=
    { e with
        status := .running
        start_time := some t1
        logs := e.logs ++
          ["Starting execution: " ++ e.assignment.primary_agent ++
            " on task " ++ e.assignment.task_id] }
  let finished :=
    match outcome with
    | .ok result =>
        { started with
            result := some result
            return_code := some 0
            status := .completed
            logs := started.logs ++ ["Execution completed successfully"] }
    | .timedOut =>
        { started with
            status := .timeout
            return_code := some (-1)
            logs := started.logs ++
              ["Execution timed out after " ++
                toString started.timeout_seconds ++ " seconds"] }
    | .err msg =>
        { started with
            status := .failed
            return_code := some 1
            result := some msg
            logs := started.logs ++ ["Execution failed: " ++ msg] }
  { finished with end_time := some t2 }

/-- `ExecutionCoordinator.get_summary`: a dict with a `"total"` entry and
one count per status named in the `if`/`elif` chain.  (The chain has no
branch for `CANCELLED`.) -/
def get_summary (execs : List AgentExecution) : List (String × Nat) :=
  [("total", execs.length),
   ("completed", execs.countP (fun e => e.status = .completed)),
   ("failed", execs.countP (fun e => e.status = .failed)),
   ("timeout", execs.countP (fun e => e.status = .timeout)),
   ("running", execs.countP (fun e => e.status = .running)),
   ("pending", execs.countP (fun e => e.status = .pending))]

/-- Sum of the per-status counts of a summary (every entry except
`"total"`). -/
def summaryStatusSum (summary : List (String × Nat)) : Nat :=
  ((summary.filter (fun p => p.1 ≠ "total")).map Prod.snd).sum

/-- `ExecutionCoordinator.cancel_all` over the executions of the index,
with the `datetime.now()` reading `t` used as the cancellation end
stamp. -/
def cancel_all (execs : List AgentExecution) (t : Nat) : List AgentExecution :=
  execs.map (fun e =>
    if e.status = .pending ∨ e.status = .running then
      { e with
          status := .cancelled
          end_time := some t
          logs := e.logs ++ ["Execution cancelled"] }
    else e)

/-! ## Concurrency discipline of `execute_parallel`

`_execute_single` wraps its whole body in `async with self._semaphore`
(an `asyncio.Semaphore(max_concurrent)`): the status only becomes
`RUNNING` after a permit is acquired, and the permit is only released
after the status has been set to a terminal value (inside the `async
with`, after the `finally`).  We model the scheduled batch as a
transition system: each scheduled execution carries its status and
whether it currently holds a semaphore permit, and the semaphore carries
its count of available permits. -/

/-- Scheduler state of one batch: per-execution (status, holds-permit)
pairs and the semaphore's available-permit count. -/
structure SchedState where
  execs : List (ExecutionStatus × Bool)
  avail : Nat
deriving DecidableEq, Repr

/-- The steps of one execution's coroutine, as interleaved by the event
loop: acquire the semaphore (possible only when a permit is available,
i.e. `avail = k + 1`), enter `RUNNING`, reach a non-cancelled terminal
status (the `try`/`except` arms), and release the permit on leaving the
`async with` block (which the source reaches only after the status is
terminal).  The affected execution is singled out by an append
decomposition of the batch. -/
inductive SchedStep : SchedState → SchedState → Prop
  | acquire (l₁ l₂ : List (ExecutionStatus × Bool)) (k : Nat) :
      SchedStep ⟨l₁ ++ (.pending, false) :: l₂, k + 1⟩
        ⟨l₁ ++ (.pending, true) :: l₂, k⟩
  | start (l₁ l₂ : List (ExecutionStatus × Bool)) (avail : Nat) :
      SchedStep ⟨l₁ ++ (.pending, true) :: l₂, avail⟩
        ⟨l₁ ++ (.running, true) :: l₂, avail⟩
  | finish (l₁ l₂ : List (ExecutionStatus × Bool)) (avail : Nat)
      (st : ExecutionStatus)
      (hst : st = .completed ∨ st = .failed ∨ st = .timeout) :
      SchedStep ⟨l₁ ++ (.running, true) :: l₂, avail⟩
        ⟨l₁ ++ (st, true) :: l₂, avail⟩
  | release (l₁ l₂ : List (ExecutionStatus × Bool)) (avail : Nat)
      (st : ExecutionStatus) (hst : isTerminal st = true) :
      SchedStep ⟨l₁ ++ (st, true) :: l₂, avail⟩
        ⟨l₁ ++ (st, false) :: l₂, avail + 1⟩

/-- Initial state of a batch of `m` scheduled executions on a coordinator
with concurrency limit `n`: everything `PENDING`, no permit held, `n`
permits available. -/
def initSched (m n : Nat) : SchedState :=
  ⟨List.replicate m (.pending, false), n⟩

/-- Number of executions currently in the `RUNNING` state. -/
def countRunning (s : SchedState) : Nat :=
  s.execs.countP (fun p => p.1 = .running)

/-- Number of executions currently holding a semaphore permit. -/
def countHolding (s : SchedState) : Nat :=
  s.execs.countP (fun p => p.2 = true)

/-- The semaphore invariant: permits held plus permits available equal
the limit, and only permit holders may be `RUNNING`. -/
def SchedInv (n : Nat) (s : SchedState) : Prop :=
  countHolding s + s.avail = n ∧
  ∀ p ∈ s.execs, p.1 = .running → p.2 = true

/-- Reachability from the initial batch state by event-loop
interleavings. -/
def SchedReachable (m n : Nat) (s : SchedState) : Prop :=
  Relation.ReflTransGen SchedStep (initSched m n) s

/-! ## Worktree manager (`orchestrator/worktree/manager.py`) -/

/-- `Worktree` dataclass (fields cleanup touches). -/
structure Worktree where
  path : String
  branch : String
  agent : String
  task_id : String
  port : Option Nat := none
  status : String := "active"
deriving DecidableEq, Repr

/-- The kinds of exception `cleanup_worktree` can raise: the
`RuntimeError` for a dirty worktree, or a `subprocess.CalledProcessError`
escaping the forced `git worktree remove --force` retry (which runs with
`check=True` and is not wrapped in a further handler). -/
inductive CleanupError where
  | runtimeError (msg : String)
  | calledProcessError (msg : String)
deriving DecidableEq, Repr

/-- The external-world behaviour relevant to cleaning one worktree:
whether its directory exists, whether `git status --porcelain` reports
uncommitted changes, and whether the plain / forced
`git worktree remove` invocations succeed. -/
structure WtEnv where
  on_disk : Bool
  dirty : Bool
  remove_ok : Bool
  force_remove_ok : Bool
deriving DecidableEq, Repr

/-- The manager's workspace index `self.worktrees` (task id → worktree,
insertion-ordered). -/
structure ManagerState where
  worktrees : List (String × Worktree)
deriving DecidableEq, Repr

/-- `del self.worktrees[task_id]` guarded by a membership test. -/
def deregister (st : ManagerState) (task_id : String) : ManagerState :=
  ⟨st.worktrees.filter (fun p => p.1 ≠ task_id)⟩

/-- `WorktreeManager.cleanup_worktree`, returning the index state
alongside the exception, if one is raised (the state is the index as of
the raise: the source mutates the index only at the very end, after all
fallible subprocess calls). -/
def cleanup_worktree (st : ManagerState) (w : Worktree) (env : WtEnv)
    (force : Bool) : ManagerState × Option CleanupError :=
  if ¬env.on_disk then
    (deregister st w.task_id, none)
  else if ¬force ∧ env.dirty then
    (st, some (.runtimeError
      ("Worktree " ++ w.path ++ " has uncommitted changes. " ++
        "Use force=True to cleanup anyway.")))
  else if env.remove_ok ∨ env.force_remove_ok then
    (deregister st w.task_id, none)
  else
    (st, some (.calledProcessError
      ("git worktree remove --force " ++ w.path ++ " failed")))

/-- The loop body of `WorktreeManager.cleanup_all` over the snapshot list
of registered worktrees: a raised `RuntimeError` is caught, printed and
skipped; any other exception propagates and aborts the loop. -/
def cleanup_all_go (envs : String → WtEnv) (force : Bool) :
    List (String × Worktree) → ManagerState → ManagerState × Option CleanupError
  | [], st => (st, none)
  | (tid, w) :: rest, st =>
      match cleanup_worktree st w (envs tid) force with
      | (st', none) => cleanup_all_go envs force rest st'
      | (st', some (.runtimeError _)) => cleanup_all_go envs force rest st'
      | (st', some (.calledProcessError e)) =>
          (st', some (.calledProcessError e))

/-- `WorktreeManager.cleanup_all`: iterate a snapshot
(`list(self.worktrees.values())`) of the index. -/
def cleanup_all (st : ManagerState) (envs : String → WtEnv) (force : Bool) :
    ManagerState × Option CleanupError :=
  cleanup_all_go envs force st.worktrees st

/-! ## Derived predicates used in the statements -/

/-- A per-task override value that does not make `assign_agent` raise:
either no override was supplied, or it is falsy (Python's
`if manual_override:`), or it names a registered agent. -/
def overrideOk (cfg : AssignerConfig) (ov : Option String) : Bool :=
  match ov with
  | none => true
  | some name => if name = "" then true else validate_agent cfg name

/-- The execution-record invariant claimed by the spec: `end_time` is set
exactly when the status is terminal. -/
def endTimeInv (e : AgentExecution) : Prop :=
  e.end_time.isSome = isTerminal e.status

instance (e : AgentExecution) : Decidable (endTimeInv e) := by
  unfold endTimeInv; infer_instance

/-- A worktree environment in which `cleanup_worktree` can only fail with
the (caught) dirty-workspace `RuntimeError`: if the directory exists, one
of the two removal attempts succeeds. -/
def envSafe (env : WtEnv) : Prop :=
  env.on_disk = true → (env.remove_ok = true ∨ env.force_remove_ok = true)

instance (env : WtEnv) : Decidable (envSafe env) := by
  unfold envSafe; infer_instance

/-! ## Concrete fixtures used by witnesses and counterexamples -/

/-- A premium large-context agent profile. -/
def agentA : Agent :=
  { optimal_tasks := ["backend_api"]
    strengths := ["architectural_planning"]
    supported_languages := ["python"]
    context_window := 200000
    cost_tier := "premium" }

/-- A budget small-context agent profile. -/
def agentB : Agent :=
  { optimal_tasks := ["frontend_component"]
    strengths := ["autocomplete_speed"]
    supported_languages := ["typescript", "python"]
    context_window := 8000
    cost_tier := "budget" }

/-- A two-agent configuration with one assignment rule. -/
def exCfg : AssignerConfig :=
  { agents := [("claude", agentA), ("cursor", agentB)]
    assignment_rules := [("backend_api", ⟨"claude", ["cursor"]⟩)] }

/-- A backend task with id `"t1"`. -/
def exTask1 : Task :=
  { id := "t1", title := "Create REST API"
    description := "Build backend API endpoints"
    key_activities := [], task_type := "backend_api"
    complexity := .medium, tech_stack := ["python"], assigned_agent := none }

/-- A frontend task with id `"t2"`. -/
def exTask2 : Task :=
  { id := "t2", title := "Build component"
    description := "Create UI component"
    key_activities := [], task_type := "frontend_component"
    complexity := .medium, tech_stack := ["typescript"], assigned_agent := none }

/-- A configuration with two agents whose profiles are identical, so that
they tie on every task. -/
def cfgTie : AssignerConfig :=
  { agents := [("a1", agentB), ("a2", agentB)]
    assignment_rules := [] }

/-- A sample coordinator assignment. -/
def exAssign : CoordAssignment :=
  { task_id := "t1", task_title := "Create REST API", primary_agent := "claude" }

/-- An execution that has been cancelled (status `CANCELLED`, end time
stamped). -/
def exCancelledExec : AgentExecution :=
  { mkExecution "/ws/worktree-claude-t1" exAssign with
      status := .cancelled
      end_time := some 7
      logs := ["Execution cancelled"] }

/-- A sample worktree registered under task id `"t1"`. -/
def exWt1 : Worktree :=
  { path := "/ws/worktree-claude-t1", branch := "agent/claude/t1"
    agent := "claude", task_id := "t1", port := some 3000 }

/-- A sample worktree registered under task id `"t2"`. -/
def exWt2 : Worktree :=
  { path := "/ws/worktree-cursor-t2", branch := "agent/cursor/t2"
    agent := "cursor", task_id := "t2", port := some 3001 }

/-- A manager index holding the two sample worktrees. -/
def exManagerSt : ManagerState :=
  ⟨[("t1", exWt1), ("t2", exWt2)]⟩

/-- Environments where cleaning `"t1"` hits a subprocess failure on both
removal attempts and every other worktree is cleanly removable. -/
def exEnvsBad : String → WtEnv :=
  fun tid =>
    if tid = "t1" then ⟨true, false, false, false⟩
    else ⟨true, false, true, true⟩

/-- Environments where the worktree for `"t1"` is dirty and every
worktree's removal attempts succeed. -/
def exEnvsDirty : String → WtEnv :=
  fun tid =>
    if tid = "t1" then ⟨true, true, true, true⟩
    else ⟨true, false, true, true⟩

/-! ## Helper lemmas -/

theorem mem_dictInsert {scores : List (String × ℚ)} {k : String} {v : ℚ}
    {p : String × ℚ} (h : p ∈ dictInsert scores k v) :
    p ∈ scores ∨ p = (k, v) := by
  unfold dictInsert at h
  by_cases hk : scores.any (fun q => q.1 = k)
  · simp only [hk, if_true] at h
    rcases List.mem_map.mp h with ⟨q, hq, hpq⟩
    by_cases hqk : q.1 = k
    · simp only [hqk, if_true] at hpq
      exact Or.inr hpq.symm
    · simp only [hqk, if_false] at hpq
      exact Or.inl (hpq ▸ hq)
  · simp only [hk, if_false, Bool.false_eq_true, List.mem_append,
      List.mem_singleton] at h
    exact h

theorem score_agents_foldl_mem (cfg : AssignerConfig) (task : Task) :
    ∀ (cands : List String) (acc : List (String × ℚ)) (p : String × ℚ),
      p ∈ cands.foldl (fun scores agent_name =>
        match alistLookup cfg.agents agent_name with
        | none => scores
        | some agent => dictInsert scores agent_name (score_agent task agent))
        acc →
      p ∈ acc ∨ p.1 ∈ cands := by
  intro cands
  induction cands with
  | nil => intro acc p h; exact Or.inl h
  | cons c cs ih =>
      intro acc p h
      rw [List.foldl_cons] at h
      rcases ih _ p h with h' | h'
      · rcases hl : alistLookup cfg.agents c with _ | agent
        · rw [hl] at h'
          exact Or.inl h'
        · rw [hl] at h'
          rcases mem_dictInsert h' with h'' | h''
          · exact Or.inl h''
          · right; rw [h'']; exact List.mem_cons_self c cs
      · right; exact List.mem_cons_of_mem c h'

theorem score_agents_key_mem {cfg : AssignerConfig} {task : Task}
    {cands : List String} {p : String × ℚ}
    (h : p ∈ score_agents cfg task cands) : p.1 ∈ cands := by
  unfold score_agents at h
  rcases score_agents_foldl_mem cfg task cands [] p h with h' | h'
  · simp at h'
  · exact h'

theorem score_agents_of_no_agents (cfg : AssignerConfig) (task : Task)
    (cands : List String) (h : cfg.agents = []) :
    score_agents cfg task cands = [] := by
  unfold score_agents
  have : ∀ (l : List String) (acc : List (String × ℚ)),
      l.foldl (fun scores agent_name =>
        match alistLookup cfg.agents agent_name with
        | none => scores
        | some agent => dictInsert scores agent_name (score_agent task agent))
        acc = acc := by
    intro l
    induction l with
    | nil => intro acc; rfl
    | cons c cs ih =>
        intro acc
        rw [List.foldl_cons]
        have hl : alistLookup cfg.agents c = none := by
          rw [h]; rfl
        rw [hl]
        exact ih acc
  exact this cands []

theorem foldl_betterOf_mem : ∀ (ps : List (String × ℚ)) (b : String × ℚ),
    ps.foldl betterOf b ∈ b :: ps := by
  intro ps
  induction ps with
  | nil => intro b; simp
  | cons q qs ih =>
      intro b
      rw [List.foldl_cons]
      by_cases hb : b.2 < q.2
      · have hbq : betterOf b q = q := by simp [betterOf, hb]
        rw [hbq]
        exact List.mem_cons_of_mem b (ih q)
      · have hbq : betterOf b q = b := by simp [betterOf, hb]
        rw [hbq]
        rcases List.mem_cons.mp (ih b) with h' | h'
        · rw [h']; exact List.mem_cons_self b (q :: qs)
        · exact List.mem_cons_of_mem b (List.mem_cons_of_mem q h')

theorem pickBest_mem {l : List (String × ℚ)} {p : String × ℚ}
    (h : pickBest l = some p) : p ∈ l := by
  match l with
  | [] => simp [pickBest] at h
  | q :: qs =>
      simp only [pickBest, Option.some.injEq] at h
      have := foldl_betterOf_mem qs q
      rw [h] at this
      exact this

theorem pickBest_eq_none {l : List (String × ℚ)}
    (h : pickBest l = none) : l = [] := by
  match l with
  | [] => rfl
  | q :: qs => simp [pickBest] at h

theorem foldl_betterOf_of_le : ∀ (l : List (String × ℚ)) (b : String × ℚ),
    (∀ q ∈ l, q.2 ≤ b.2) → l.foldl betterOf b = b := by
  intro l
  induction l with
  | nil => intro b _; rfl
  | cons q qs ih =>
      intro b h
      rw [List.foldl_cons]
      have hq : betterOf b q = b := by
        have : ¬b.2 < q.2 := not_lt.mpr (h q (List.mem_cons_self q qs))
        simp [betterOf, this]
      rw [hq]
      exact ih b (fun r hr => h r (List.mem_cons_of_mem q hr))

theorem foldl_betterOf_reach :
    ∀ (l₁ : List (String × ℚ)) (x p : String × ℚ) (l₂ : List (String × ℚ)),
      x.2 < p.2 → (∀ q ∈ l₁, q.2 < p.2) → (∀ q ∈ l₂, q.2 ≤ p.2) →
      (l₁ ++ p :: l₂).foldl betterOf x = p := by
  intro l₁
  induction l₁ with
  | nil =>
      intro x p l₂ hx _ h₂
      rw [List.nil_append, List.foldl_cons]
      have : betterOf x p = p := by simp [betterOf, hx]
      rw [this]
      exact foldl_betterOf_of_le l₂ p h₂
  | cons y ys ih =>
      intro x p l₂ hx h₁ h₂
      rw [List.cons_append, List.foldl_cons]
      have hy : y.2 < p.2 := h₁ y (List.mem_cons_self y ys)
      have hxy : (betterOf x y).2 < p.2 := by
        by_cases hb : x.2 < y.2 <;> simp [betterOf, hb, hx, hy]
      exact ih (betterOf x y) p l₂ hxy
        (fun q hq => h₁ q (List.mem_cons_of_mem y hq)) h₂

theorem pickBest_first_max {l₁ : List (String × ℚ)} {p : String × ℚ}
    {l₂ : List (String × ℚ)}
    (h₁ : ∀ q ∈ l₁, q.2 < p.2) (h₂ : ∀ q ∈ l₂, q.2 ≤ p.2) :
    pickBest (l₁ ++ p :: l₂) = some p := by
  match l₁ with
  | [] =>
      rw [List.nil_append]
      simp only [pickBest, Option.some.injEq]
      exact foldl_betterOf_of_le l₂ p h₂
  | x :: l₁' =>
      rw [List.cons_append]
      simp only [pickBest, Option.some.injEq]
      exact foldl_betterOf_reach l₁' x p l₂
        (h₁ x (List.mem_cons_self x l₁'))
        (fun q hq => h₁ q (List.mem_cons_of_mem x hq)) h₂

theorem assign_agent_ok_of_overrideOk (cfg : AssignerConfig) (task : Task)
    (ov : Option String) (h : overrideOk cfg ov = true) :
    ∃ t', assign_agent cfg task ov = .ok t' ∧ t'.assigned_agent.isSome := by
  match ov with
  | none =>
      exact ⟨{ task with assigned_agent := some (determine_best_agent cfg task) },
        rfl, rfl⟩
  | some name =>
      by_cases hname : name = ""
      · subst hname
        refine ⟨{ task with
          assigned_agent := some (determine_best_agent cfg task) }, ?_, rfl⟩
        simp [assign_agent]
      · unfold overrideOk at h
        simp only [hname, if_false] at h
        refine ⟨{ task with assigned_agent := some name }, ?_, rfl⟩
        simp [assign_agent, hname, h]

theorem assign_agent_err_of_overrideBad (cfg : AssignerConfig) (task : Task)
    (ov : Option String) (h : overrideOk cfg ov = false) :
    ∃ e, assign_agent cfg task ov = .error e := by
  match ov with
  | none => simp [overrideOk] at h
  | some name =>
      by_cases hname : name = ""
      · subst hname; simp [overrideOk] at h
      · unfold overrideOk at h
        simp only [hname, if_false] at h
        refine ⟨"Invalid agent: " ++ name, ?_⟩
        simp [assign_agent, hname, h]

/-! ## Claim theorems -/

/-- C1 (counterexample): batch assignment is aborted by one bad override.
With agents `{claude, cursor}` and the override `t1 ↦ ghost` (an unknown
agent), `assign_agents` over the two tasks `t1`, `t2` raises: no list of
assigned tasks is produced, so `t2` does not get its agent assigned,
contradicting the claim that only `t1`'s assignment fails. -/
theorem assign_agents_unknown_override_aborts :
    assign_agents exCfg [exTask1, exTask2] [("t1", "ghost")] =
      .error ("Invalid agent: " ++ "ghost") := rfl

/-- C1 (amended): `assign_agents` processes the tasks sequentially with
no per-task error capture: if any task's override names an unknown agent
(and is nonempty), the whole batch call fails with that `ValueError` and
no assigned task list is returned; only when every task's override is
absent, empty, or names a known agent does every task in the batch get an
agent assigned. -/
theorem assign_agents_batch_abort_semantics (cfg : AssignerConfig)
    (tasks : List Task) (overrides : List (String × String)) :
    ((∃ t ∈ tasks, overrideOk cfg (alistLookup overrides t.id) = false) →
      ∃ e, assign_agents cfg tasks overrides = .error e) ∧
    ((∀ t ∈ tasks, overrideOk cfg (alistLookup overrides t.id) = true) →
      ∃ ts, assign_agents cfg tasks overrides = .ok ts ∧
        ts.length = tasks.length ∧ ∀ t ∈ ts, t.assigned_agent.isSome) := by
  induction tasks with
  | nil =>
      constructor
      · rintro ⟨t, ht, _⟩; simp at ht
      · intro _; exact ⟨[], rfl, rfl, by simp⟩
  | cons task rest ih =>
      constructor
      · rintro ⟨t, ht, hbad⟩
        rcases List.mem_cons.mp ht with h' | h'
        · subst h'
          rcases assign_agent_err_of_overrideBad cfg t _ hbad with ⟨e, he⟩
          exact ⟨e, by simp [assign_agents, he]⟩
        · by_cases hhead : overrideOk cfg (alistLookup overrides task.id) = true
          · rcases assign_agent_ok_of_overrideOk cfg task _ hhead with ⟨t', ht', _⟩
            rcases ih.1 ⟨t, h', hbad⟩ with ⟨e, he⟩
            exact ⟨e, by simp [assign_agents, ht', he]⟩
          · have hhead' : overrideOk cfg (alistLookup overrides task.id) = false :=
              Bool.eq_false_iff.mpr hhead
            rcases assign_agent_err_of_overrideBad cfg task _ hhead' with ⟨e, he⟩
            exact ⟨e, by simp [assign_agents, he]⟩
      · intro hall
        rcases assign_agent_ok_of_overrideOk cfg task _
            (hall task (List.mem_cons_self task rest)) with ⟨t', ht', hsome⟩
        rcases ih.2 (fun t h => hall t (List.mem_cons_of_mem task h)) with
          ⟨ts, hts, hlen, hassigned⟩
        refine ⟨t' :: ts, ?_, ?_, ?_⟩
        · simp [assign_agents, ht', hts]
        · simp [hlen]
        · intro t h
          rcases List.mem_cons.mp h with h' | h'
          · rw [h']; exact hsome
          · exact hassigned t h'

/-- C1 (amended, witness): the bad-override branch at a concrete input. -/
theorem assign_agents_batch_abort_semantics_witness :
    ∃ e, assign_agents exCfg [exTask1, exTask2] [("t1", "ghostly")] =
      .error e :=
  (assign_agents_batch_abort_semantics exCfg [exTask1, exTask2]
    [("t1", "ghostly")]).1 ⟨exTask1, by decide, by decide⟩

/-- C5: a nonempty manual override naming an unknown agent makes
`assign_agent` raise `ValueError` (so no assigned task is produced and
the caller's task keeps its unset `assigned_agent`, the raise happening
before any mutation in the source); an override naming a known agent is
short-circuited to verbatim, without scoring. -/
theorem assign_agent_override_validation (cfg : AssignerConfig) (task : Task)
    (name : String) (hne : name ≠ "") :
    (validate_agent cfg name = false →
      assign_agent cfg task (some name) = .error ("Invalid agent: " ++ name)) ∧
    (validate_agent cfg name = true →
      assign_agent cfg task (some name) =
        .ok { task with assigned_agent := some name }) := by
  constructor
  · intro hv
    simp [assign_agent, hne, hv]
  · intro hv
    simp [assign_agent, hne, hv]

/-- C5 (witness): `"ghost"` is not registered in `exCfg`, and the call
fails with the exact `ValueError` message. -/
theorem assign_agent_override_validation_witness :
    assign_agent exCfg exTask1 (some "ghost") =
      .error ("Invalid agent: " ++ "ghost") :=
  (assign_agent_override_validation exCfg exTask1 "ghost" (by decide)).1
    (by decide)

/-- C6: when the task's category has an assignment rule, the winner is
one of `{primary} ∪ secondary` unless none of those candidates scores
(none is registered), in which case all registered agents are scored; and
with an empty agent registry the hard-coded fallback `"claude"` is
returned. -/
theorem determine_best_agent_candidate_set (cfg : AssignerConfig)
    (task : Task) (R : AssignRule)
    (hR : alistLookup cfg.assignment_rules task.task_type = some R) :
    (determine_best_agent cfg task ∈ R.primary :: R.secondary ∨
      score_agents cfg task (R.primary :: R.secondary) = []) ∧
    (cfg.agents = [] → determine_best_agent cfg task = "claude") := by
  constructor
  · rcases hp : pickBest (score_agents cfg task (R.primary :: R.secondary))
      with _ | best
    · exact Or.inr (pickBest_eq_none hp)
    · left
      have hb : determine_best_agent cfg task = best.1 := by
        simp only [determine_best_agent, hR, hp]
      rw [hb]
      exact score_agents_key_mem (pickBest_mem hp)
  · intro h
    simp only [determine_best_agent, hR, score_agents_of_no_agents cfg task _ h]
    rfl

/-- C6 (witness): `exCfg` has a rule for `backend_api`. -/
theorem determine_best_agent_candidate_set_witness :
    (determine_best_agent exCfg exTask1 ∈ "claude" :: ["cursor"] ∨
      score_agents exCfg exTask1 ("claude" :: ["cursor"]) = []) ∧
    (exCfg.agents = [] → determine_best_agent exCfg exTask1 = "claude") :=
  determine_best_agent_candidate_set exCfg exTask1 ⟨"claude", ["cursor"]⟩
    (by decide)

/-- C7: scoring and selection are deterministic functions of their
inputs (the embedding is pure, so two calls on identical inputs are the
same term), and the winner is the first entry of the insertion-ordered
score dict attaining the maximal score — entries of the dict appear in
first-occurrence candidate order, so a tie between equal maximal scores
goes to the candidate encountered first. -/
theorem scoring_first_max_tie_break (cfg : AssignerConfig) (task : Task)
    (cands : List String) :
    (∀ cfg' task' cands', cfg = cfg' → task = task' → cands = cands' →
      score_agents cfg task cands = score_agents cfg' task' cands' ∧
      determine_best_agent cfg task = determine_best_agent cfg' task') ∧
    (∀ (l₁ : List (String × ℚ)) (p : String × ℚ) (l₂ : List (String × ℚ)),
      score_agents cfg task cands = l₁ ++ p :: l₂ →
      (∀ q ∈ l₁, q.2 < p.2) → (∀ q ∈ l₂, q.2 ≤ p.2) →
      pickBest (score_agents cfg task cands) = some p) := by
  constructor
  · rintro cfg' task' cands' rfl rfl rfl
    exact ⟨rfl, rfl⟩
  · intro l₁ p l₂ hsplit h₁ h₂
    rw [hsplit]
    exact pickBest_first_max h₁ h₂

theorem ctx_window_exTask1_agentB :
    score_context_window exTask1 agentB = 1 := by
  have h : (contextKeywords.any fun kw =>
      strContains (taskTextContent exTask1) kw) = false := by decide
  simp [score_context_window, h, agentB]

theorem score_agent_exTask1_agentB : score_agent exTask1 agentB = 6 := by
  unfold score_agent
  rw [ctx_window_exTask1_agentB]
  norm_num [score_complexity_match, score_tech_stack_match, exTask1, agentB]
  rw [if_neg (by decide : ¬("backend_api" = "frontend_component"))]
  norm_num

theorem score_agents_cfgTie :
    score_agents cfgTie exTask1 ["a1", "a2"] = [("a1", 6), ("a2", 6)] := by
  simp [score_agents, cfgTie, alistLookup, dictInsert,
    score_agent_exTask1_agentB]

/-- C7 (witness): in `cfgTie` the two agents `a1`, `a2` have identical
profiles and tie at score 6 on `exTask1`; the first candidate `a1`
wins. -/
theorem scoring_first_max_tie_break_witness :
    pickBest (score_agents cfgTie exTask1 ["a1", "a2"]) = some ("a1", 6) :=
  (scoring_first_max_tie_break cfgTie exTask1 ["a1", "a2"]).2
    [] ("a1", 6) [("a2", 6)] (by rw [score_agents_cfgTie]; rfl)
    (by simp) (by simp)

/-- C3: end-time stamping exactly matches terminality.  A freshly
constructed execution has neither; `_execute_single` leaves every
execution terminal with its end time stamped in the `finally` block on
every outcome branch; and `cancel_all` cancels-and-stamps every
non-terminal execution and preserves the invariant on the already
terminal ones. -/
theorem execution_end_time_iff_terminal :
    (∀ (wp : String) (a : CoordAssignment), endTimeInv (mkExecution wp a)) ∧
    (∀ (e : AgentExecution) (o : RunOutcome) (t1 t2 : Nat),
      endTimeInv (execute_single e o t1 t2) ∧
      isTerminal (execute_single e o t1 t2).status = true) ∧
    (∀ (execs : List AgentExecution) (t : Nat) (e' : AgentExecution),
      (∀ e ∈ execs, endTimeInv e) → e' ∈ cancel_all execs t →
      endTimeInv e' ∧ isTerminal e'.status = true) := by
  refine ⟨fun wp a => rfl, fun e o t1 t2 => ?_, fun execs t e' h hmem => ?_⟩
  · cases o <;> exact ⟨rfl, rfl⟩
  · rcases List.mem_map.mp hmem with ⟨e, he, rfl⟩
    by_cases hc : e.status = .pending ∨ e.status = .running
    · simp only [hc, if_true]
      exact ⟨rfl, rfl⟩
    · simp only [hc, if_false]
      refine ⟨h e he, ?_⟩
      rcases hst : e.status <;> simp [hst, isTerminal] at hc ⊢

/-- C3 (witness): one pending execution; after `cancel_all` it is
cancelled with its end time stamped. -/
theorem execution_end_time_iff_terminal_witness :
    endTimeInv exCancelledExec ∧ isTerminal exCancelledExec.status = true :=
  execution_end_time_iff_terminal.2.2
    [mkExecution "/ws/worktree-claude-t1" exAssign] 7 exCancelledExec
    (by decide) (by decide)

/-- C4: the outcome of the agent runner determines status, return code
and stored result exactly: normal return → `COMPLETED`, return code 0,
result stored; `asyncio.TimeoutError` → `TIMEOUT`, return code -1; any
other exception → `FAILED`, return code 1, error text stored as
result. -/
theorem execute_single_outcome_mapping (e : AgentExecution)
    (res msg : String) (t1 t2 : Nat) :
    ((execute_single e (.ok res) t1 t2).status = .completed ∧
      (execute_single e (.ok res) t1 t2).return_code = some 0 ∧
      (execute_single e (.ok res) t1 t2).result = some res) ∧
    ((execute_single e .timedOut t1 t2).status = .timeout ∧
      (execute_single e .timedOut t1 t2).return_code = some (-1)) ∧
    ((execute_single e (.err msg) t1 t2).status = .failed ∧
      (execute_single e (.err msg) t1 t2).return_code = some 1 ∧
      (execute_single e (.err msg) t1 t2).result = some msg) :=
  ⟨⟨rfl, rfl, rfl⟩, ⟨rfl, rfl⟩, ⟨rfl, rfl, rfl⟩⟩

/-- C8 (counterexample): `get_summary` has no `CANCELLED` bucket.  On an
index holding a single cancelled execution, the summary contains no
`"cancelled"` key, and the per-status counts sum to 0 while the total is
1 — refuting both parts of the claim. -/
theorem get_summary_missing_cancelled :
    alistLookup (get_summary [exCancelledExec]) "cancelled" = none ∧
    alistLookup (get_summary [exCancelledExec]) "total" = some 1 ∧
    summaryStatusSum (get_summary [exCancelledExec]) = 0 := by decide

/-- C8 (amended): `get_summary` returns a count for every status except
`CANCELLED` (plus a total); cancelled executions are counted under no
key, so the per-status counts sum to the number of non-cancelled
executions, which equals the total only when no execution is
cancelled. -/
theorem get_summary_per_status_counts (execs : List AgentExecution) :
    alistLookup (get_summary execs) "cancelled" = none ∧
    alistLookup (get_summary execs) "total" = some execs.length ∧
    alistLookup (get_summary execs) "completed" =
      some (execs.countP (fun e => e.status = .completed)) ∧
    alistLookup (get_summary execs) "failed" =
      some (execs.countP (fun e => e.status = .failed)) ∧
    alistLookup (get_summary execs) "timeout" =
      some (execs.countP (fun e => e.status = .timeout)) ∧
    alistLookup (get_summary execs) "running" =
      some (execs.countP (fun e => e.status = .running)) ∧
    alistLookup (get_summary execs) "pending" =
      some (execs.countP (fun e => e.status = .pending)) ∧
    summaryStatusSum (get_summary execs) =
      (execs.filter (fun e => e.status ≠ .cancelled)).length := by
  refine ⟨rfl, rfl, rfl, rfl, rfl, rfl, rfl, ?_⟩
  induction execs with
  | nil => rfl
  | cons e es ih =>
      simp only [summaryStatusSum, get_summary] at ih ⊢
      rcases hst : e.status <;>
        simp [List.countP_cons, List.filter_cons, hst] at ih ⊢ <;>
        omega

theorem isTerminal_ne_running {st : ExecutionStatus}
    (h : isTerminal st = true) : st ≠ .running := by
  cases st <;> simp_all [isTerminal]

theorem sched_inv_init (m n : Nat) : SchedInv n (initSched m n) := by
  constructor
  · have h : countHolding (initSched m n) = 0 := by
      apply List.countP_eq_zero.mpr
      intro p hp
      rw [List.eq_of_mem_replicate hp]
      simp
    rw [h]
    simp [initSched]
  · intro p hp hr
    rw [List.eq_of_mem_replicate hp] at hr
    exact absurd hr (by simp)

theorem sched_inv_step {n : Nat} {s s' : SchedState} (hinv : SchedInv n s)
    (hstep : SchedStep s s') : SchedInv n s' := by
  obtain ⟨hcount, hrun⟩ := hinv
  cases hstep with
  | acquire l₁ l₂ k =>
      refine ⟨?_, ?_⟩
      · simp only [countHolding, List.countP_append, List.countP_cons] at hcount ⊢
        simp at hcount ⊢
        omega
      · intro p hp hr
        rcases List.mem_append.mp hp with h' | h'
        · exact hrun p (List.mem_append.mpr (Or.inl h')) hr
        · rcases List.mem_cons.mp h' with h'' | h''
          · rw [h'']
          · exact hrun p
              (List.mem_append.mpr (Or.inr (List.mem_cons.mpr (Or.inr h'')))) hr
  | start l₁ l₂ avail =>
      refine ⟨?_, ?_⟩
      · simp only [countHolding, List.countP_append, List.countP_cons] at hcount ⊢
        simp at hcount ⊢
        omega
      · intro p hp hr
        rcases List.mem_append.mp hp with h' | h'
        · exact hrun p (List.mem_append.mpr (Or.inl h')) hr
        · rcases List.mem_cons.mp h' with h'' | h''
          · rw [h'']
          · exact hrun p
              (List.mem_append.mpr (Or.inr (List.mem_cons.mpr (Or.inr h'')))) hr
  | finish l₁ l₂ avail st hst =>
      refine ⟨?_, ?_⟩
      · simp only [countHolding, List.countP_append, List.countP_cons] at hcount ⊢
        simp at hcount ⊢
        omega
      · intro p hp hr
        rcases List.mem_append.mp hp with h' | h'
        · exact hrun p (List.mem_append.mpr (Or.inl h')) hr
        · rcases List.mem_cons.mp h' with h'' | h''
          · rw [h'']
          · exact hrun p
              (List.mem_append.mpr (Or.inr (List.mem_cons.mpr (Or.inr h'')))) hr
  | release l₁ l₂ avail st hst =>
      refine ⟨?_, ?_⟩
      · simp only [countHolding, List.countP_append, List.countP_cons] at hcount ⊢
        simp at hcount ⊢
        omega
      · intro p hp hr
        rcases List.mem_append.mp hp with h' | h'
        · exact hrun p (List.mem_append.mpr (Or.inl h')) hr
        · rcases List.mem_cons.mp h' with h'' | h''
          · rw [h''] at hr
            exact absurd hr (isTerminal_ne_running hst)
          · exact hrun p
              (List.mem_append.mpr (Or.inr (List.mem_cons.mpr (Or.inr h'')))) hr

theorem sched_inv_reachable {m n : Nat} {s : SchedState}
    (h : SchedReachable m n s) : SchedInv n s := by
  unfold SchedReachable at h
  induction h with
  | refl => exact sched_inv_init m n
  | tail _ hstep ih => exact sched_inv_step ih hstep

/-- C9: under the coordinator's semaphore discipline, in every state
reachable from a freshly scheduled batch of `m` executions on a
coordinator with concurrency limit `n`, at most `n` executions are in
the `RUNNING` state.  An execution becomes `RUNNING` only while holding
a semaphore permit, a permit is acquired only when one of the `n` is
available (`acquire` requires `avail = k + 1`), and executions that
cannot acquire stay `PENDING` until a release frees a slot. -/
theorem execute_parallel_concurrency_bound (m n : Nat) (s : SchedState)
    (h : SchedReachable m n s) : countRunning s ≤ n := by
  obtain ⟨hcount, hrun⟩ := sched_inv_reachable h
  have h1 : countRunning s ≤ countHolding s := by
    apply List.countP_mono_left
    intro p hp
    simp only [decide_eq_true_eq]
    exact hrun p hp
  omega

/-- C9 (witness): three executions on a limit-2 coordinator; after one
acquire and one start, one execution is `RUNNING`, within the bound. -/
theorem execute_parallel_concurrency_bound_witness :
    countRunning ⟨[(.running, true), (.pending, false), (.pending, false)], 1⟩ ≤ 2 :=
  execute_parallel_concurrency_bound 3 2 _
    (Relation.ReflTransGen.tail
      (Relation.ReflTransGen.tail Relation.ReflTransGen.refl
        (SchedStep.acquire [] [(.pending, false), (.pending, false)] 1))
      (SchedStep.start [] [(.pending, false), (.pending, false)] 1))

theorem alistLookup_filter_ne (l : List (String × Worktree)) (k : String) :
    alistLookup (l.filter (fun p => p.1 ≠ k)) k = none := by
  induction l with
  | nil => rfl
  | cons p rest ih =>
      simp only [ne_eq, decide_not] at ih ⊢
      by_cases hp : p.1 = k
      · simp [List.filter_cons, hp, ih]
      · simp [List.filter_cons, hp, alistLookup, ih]

theorem cleanup_all_go_ok (envs : String → WtEnv) (force : Bool) :
    ∀ (l : List (String × Worktree)) (st₀ : ManagerState),
      (∀ p ∈ l, envSafe (envs p.1)) →
      ∃ st', cleanup_all_go envs force l st₀ = (st', none) := by
  intro l
  induction l with
  | nil => intro st₀ _; exact ⟨st₀, rfl⟩
  | cons p rest ih =>
      intro st₀ h
      obtain ⟨tid, w⟩ := p
      have hsafe := h (tid, w) (List.mem_cons_self _ rest)
      have hrest := fun q hq => h q (List.mem_cons_of_mem _ hq)
      by_cases h1 : (envs tid).on_disk = true
      · by_cases h2 : ¬force = true ∧ (envs tid).dirty = true
        · have hw : cleanup_worktree st₀ w (envs tid) force =
              (st₀, some (.runtimeError ("Worktree " ++ w.path ++
                " has uncommitted changes. " ++
                "Use force=True to cleanup anyway."))) := by
            simp [cleanup_worktree, h1, h2]
          rcases ih st₀ hrest with ⟨st', hst'⟩
          exact ⟨st', by simp [cleanup_all_go, hw, hst']⟩
        · have hrm : (envs tid).remove_ok = true ∨
              (envs tid).force_remove_ok = true := hsafe h1
          have hw : cleanup_worktree st₀ w (envs tid) force =
              (deregister st₀ w.task_id, none) := by
            simp only [cleanup_worktree, h1, hrm]
            simp [cleanup_worktree, h1, h2, hrm]
            intro hf
            subst hf
            simpa using h2
          rcases ih (deregister st₀ w.task_id) hrest with ⟨st', hst'⟩
          exact ⟨st', by simp [cleanup_all_go, hw, hst']⟩
      · have hw : cleanup_worktree st₀ w (envs tid) force =
            (deregister st₀ w.task_id, none) := by
          simp [cleanup_worktree, h1]
        rcases ih (deregister st₀ w.task_id) hrest with ⟨st', hst'⟩
        exact ⟨st', by simp [cleanup_all_go, hw, hst']⟩

/-- C2 (counterexample): a non-`RuntimeError` failure does abort the
batch.  With two registered worktrees where cleaning `t1` fails in the
forced `git worktree remove --force` retry (a `CalledProcessError`, not a
`RuntimeError`), `cleanup_all` propagates the exception to the caller
and never attempts the cleanup of `t2`, which stays registered —
refuting both the "never prevents the remaining attempts" and the
"does not propagate" parts of the claim. -/
theorem cleanup_all_subprocess_error_aborts :
    cleanup_all exManagerSt exEnvsBad false =
      (exManagerSt, some (.calledProcessError
        ("git worktree remove --force " ++ "/ws/worktree-claude-t1" ++
          " failed"))) ∧
    alistLookup (cleanup_all exManagerSt exEnvsBad false).1.worktrees "t2" =
      some exWt2 := by decide

/-- C2 (amended): `cleanup_all` swallows only `RuntimeError` (the
dirty-workspace failure) per worktree and continues with the rest; when
no worktree hits a non-`RuntimeError` failure (every on-disk worktree is
removable by one of the two removal attempts), the whole iteration
completes without propagating anything.  A `CalledProcessError` escaping
the forced-removal retry, however, aborts the remaining cleanups. -/
theorem cleanup_all_error_policy (st : ManagerState)
    (envs : String → WtEnv) (force : Bool) :
    ((∀ p ∈ st.worktrees, envSafe (envs p.1)) →
      ∃ st', cleanup_all st envs force = (st', none)) ∧
    (∀ (tid : String) (w : Worktree) (rest : List (String × Worktree))
        (st₀ : ManagerState),
      (envs tid).on_disk = true → (envs tid).dirty = true → force = false →
      cleanup_all_go envs force ((tid, w) :: rest) st₀ =
        cleanup_all_go envs force rest st₀) := by
  constructor
  · intro h
    exact cleanup_all_go_ok envs force st.worktrees st h
  · intro tid w rest st₀ h1 h2 hf
    subst hf
    have hw : cleanup_worktree st₀ w (envs tid) false =
        (st₀, some (.runtimeError ("Worktree " ++ w.path ++
          " has uncommitted changes. " ++
          "Use force=True to cleanup anyway."))) := by
      simp [cleanup_worktree, h1, h2]
    simp [cleanup_all_go, hw]

/-- C2 (amended, witness): a dirty `t1` (caught `RuntimeError`) does not
stop the iteration, and under subprocess-failure-free environments
`cleanup_all` returns without propagating. -/
theorem cleanup_all_error_policy_witness :
    ∃ st', cleanup_all exManagerSt exEnvsDirty false = (st', none) :=
  (cleanup_all_error_policy exManagerSt exEnvsDirty false).1 (by decide)

/-- C10: cleaning a registered worktree whose directory exists and has
uncommitted changes fails with the dirty-workspace `RuntimeError` when
`force=false`, leaving the index untouched (the worktree stays
registered); the same call with `force=true` skips the dirty check,
removes the working copy (reaching a successful removal attempt) and
deregisters the worktree from the index. -/
theorem cleanup_dirty_worktree_force_semantics (st : ManagerState)
    (w : Worktree) (env : WtEnv)
    (hreg : alistLookup st.worktrees w.task_id = some w)
    (hdisk : env.on_disk = true) (hdirty : env.dirty = true)
    (hremove : env.remove_ok = true ∨ env.force_remove_ok = true) :
    (cleanup_worktree st w env false =
      (st, some (.runtimeError ("Worktree " ++ w.path ++
        " has uncommitted changes. " ++
        "Use force=True to cleanup anyway."))) ∧
      alistLookup (cleanup_worktree st w env false).1.worktrees w.task_id =
        some w) ∧
    (cleanup_worktree st w env true = (deregister st w.task_id, none) ∧
      alistLookup (cleanup_worktree st w env true).1.worktrees w.task_id =
        none) := by
  have h1 : cleanup_worktree st w env false =
      (st, some (.runtimeError ("Worktree " ++ w.path ++
        " has uncommitted changes. " ++
        "Use force=True to cleanup anyway."))) := by
    simp [cleanup_worktree, hdisk, hdirty]
  have h2 : cleanup_worktree st w env true = (deregister st w.task_id, none) := by
    simp [cleanup_worktree, hdisk, hdirty, hremove]
  refine ⟨⟨h1, ?_⟩, h2, ?_⟩
  · rw [h1]; exact hreg
  · rw [h2]
    exact alistLookup_filter_ne st.worktrees w.task_id

/-- C10 (witness): the two calls on a concrete dirty worktree. -/
theorem cleanup_dirty_worktree_force_semantics_witness :
    cleanup_worktree exManagerSt exWt1 ⟨true, true, true, true⟩ true =
      (deregister exManagerSt "t1", none) :=
  (cleanup_dirty_worktree_force_semantics exManagerSt exWt1
    ⟨true, true, true, true⟩ (by decide) rfl rfl (Or.inl rfl)).2.1

end Orchestrator
